import Mathlib

/-!
Verification of the access-token registry in `auth/tokenstore.go`.

The registry exposes four operations (Store, Lookup, Revoke, List) with two
backends: `inMemoryTokenStore`, a map from user id to a set of token ids
(Go type `map[string]map[string]string`), and `vaultTokenStore`, a stateless
adapter issuing path-addressed calls against a Vault secret service.

Go maps are embedded as association lists with Go map semantics:
`mapGet` returns the first binding, `mapSet` updates the first binding in
place (appending when absent), `mapDelete` removes the key.  States actually
representable by a Go map have pairwise distinct keys (`mapWF`).  Go's nil
error is `Option.none`; the Vault client is a parameter (a function from
paths to responses), and a Go runtime panic (nil dereference, failed type
assertion) is the `crash` outcome.
-/

/-- A Go error value; `none` in `Option GoError` is Go's nil error. -/
abbrev GoError := String

/-- Abbreviation so method-style names such as `inMemoryTokenStore.List` can
still mention the list-of-strings type in their signatures. -/
abbrev StrList := List String

/-- Go map read `m[k]`: the binding of the first occurrence of `k`. -/
def mapGet {β : Type} (m : List (String × β)) (k : String) : Option β :=
  match m with
  | [] => none
  | (k', v) :: rest => if k' = k then some v else mapGet rest k

/-- Go `delete(m, k)`: remove the binding of `k`. -/
def mapDelete {β : Type} (m : List (String × β)) (k : String) : List (String × β) :=
  match m with
  | [] => []
  | (k', v) :: rest => if k' = k then mapDelete rest k else (k', v) :: mapDelete rest k

/-- Go map write `m[k] = v`: replace the first binding of `k` in place,
or append a new binding when `k` is absent. -/
def mapSet {β : Type} (m : List (String × β)) (k : String) (v : β) : List (String × β) :=
  match m with
  | [] => [(k, v)]
  | (k', v') :: rest => if k' = k then (k, v) :: rest else (k', v') :: mapSet rest k v

/-- Inner Go map `map[string]string`: token id to stored value. -/
abbrev UserTokens := List (String × String)

/-- Outer Go map `map[string]map[string]string` held by `inMemoryTokenStore`. -/
abbrev StoreMap := List (String × UserTokens)

/-- A list of bindings is a faithful Go map state when its keys are distinct. -/
def mapWF {β : Type} (m : List (String × β)) : Prop :=
  (m.map Prod.fst).Nodup

/-- Both levels of the in-memory state are faithful Go maps. -/
def StoreWF (s : StoreMap) : Prop :=
  mapWF s ∧ ∀ p ∈ s, mapWF p.2

instance {β : Type} (m : List (String × β)) : Decidable (mapWF m) := by
  unfold mapWF; infer_instance

instance (s : StoreMap) : Decidable (StoreWF s) := by
  unfold StoreWF; infer_instance

/-- `NewInMemoryTokenStore`: the empty map. -/
def NewInMemoryTokenStore : StoreMap := []

/-- `inMemoryTokenStore.Store`: fetch (or lazily create) the per-user map,
bind `token` to itself in it, write the map back, return nil error. -/
def inMemoryTokenStore.Store (s : StoreMap) (userId token : String) :
    StoreMap × Option GoError :=
  let userTokens := (mapGet s userId).getD []
  (mapSet s userId (mapSet userTokens token token), none)

/-- `inMemoryTokenStore.Lookup`: for a known user return `userTokens[token]`
(Go's zero value "" when absent); for an unknown user return "".  Nil error
in every case. -/
def inMemoryTokenStore.Lookup (s : StoreMap) (userId token : String) :
    String × Option GoError :=
  match mapGet s userId with
  | some userTokens => ((mapGet userTokens token).getD "", none)
  | none => ("", none)

/-- `inMemoryTokenStore.Revoke`: for a known user delete `token` from the
per-user map (a mutation of the shared inner map, i.e. an in-place update of
the outer binding); unknown user is a no-op.  Nil error in every case. -/
def inMemoryTokenStore.Revoke (s : StoreMap) (userId token : String) :
    StoreMap × Option GoError :=
  match mapGet s userId with
  | some userTokens => (mapSet s userId (mapDelete userTokens token), none)
  | none => (s, none)

/-- `inMemoryTokenStore.List`: for a known user snapshot the keys of the
per-user map; for an unknown user return the nil (empty) slice.  Nil error
in every case. -/
def inMemoryTokenStore.List (s : StoreMap) (userId : String) :
    StrList × Option GoError :=
  match mapGet s userId with
  | some userTokens => (userTokens.map Prod.fst, none)
  | none => ([], none)

/- Vault-backed variant. -/

/-- A Go `interface\x7b\x7d` value as it occurs in Vault secret payloads. -/
inductive GoValue where
  | str : String → GoValue
  | arr : List GoValue → GoValue
  | null : GoValue

/-- The `Data map[string]interface\x7b\x7d` payload of a Vault secret. -/
abbrev SecretData := List (String × GoValue)

/-- The pair a Vault logical read/list/delete returns: `secret = none` models
a nil `*vaultapi.Secret` (the service's "absent" signal is nil secret with
nil error), `err` the Go error. -/
structure VaultResponse where
  secret : Option SecretData
  err : Option GoError

/-- Outcome of a Go function call: a normal return, a returned error, or a
runtime panic (nil-pointer dereference or failed type assertion). -/
inductive VaultOutcome (α : Type) where
  | ok : α → VaultOutcome α
  | fail : GoError → VaultOutcome α
  | crash : VaultOutcome α

/-- `tokenPath`: `fmt.Sprintf("secret/accesstokens/%s/%s", userId, token)`. -/
def tokenPath (userId token : String) : String :=
  "secret/accesstokens/" ++ userId ++ "/" ++ token

/-- The Go type assertion `v.(string)`: yields the string, or panics (`none`)
when the value is not a string (including the nil interface from a missing
map key). -/
def GoValue.asString : GoValue → Option String
  | .str s => some s
  | _ => none

/-- The loop `tokens[i] = key.(string)`: every element must assert to string,
otherwise the loop panics. -/
def asStrings : List GoValue → Option StrList
  | [] => some []
  | v :: rest =>
    match v.asString with
    | some s => (asStrings rest).map (s :: ·)
    | none => none

/-- `vaultTokenStore.Store`: write `{token: token}` at `tokenPath` and return
the client's error. -/
def vaultTokenStore.Store (write : String → SecretData → Option GoError)
    (userId token : String) : Option GoError :=
  write (tokenPath userId token) [("token", GoValue.str token)]

/-- `vaultTokenStore.Lookup`: read `tokenPath`; propagate a client error;
otherwise evaluate `secret.Data["token"].(string)` — which panics when the
secret is nil (absent path) or the field is missing or not a string. -/
def vaultTokenStore.Lookup (read : String → VaultResponse)
    (userId token : String) : VaultOutcome String :=
  let resp := read (tokenPath userId token)
  match resp.err with
  | some e => .fail e
  | none =>
    match resp.secret with
    | none => .crash
    | some data =>
      match (mapGet data "token").getD GoValue.null with
      | .str s => .ok s
      | _ => .crash

/-- `vaultTokenStore.Revoke`: delete `tokenPath` and return the client's
error. -/
def vaultTokenStore.Revoke (delete : String → VaultResponse)
    (userId token : String) : Option GoError :=
  (delete (tokenPath userId token)).err

/-- `vaultTokenStore.List`: list `secret/accesstokens/<userId>`; propagate a
client error; otherwise evaluate `secret.Data["keys"].([]interface\x7b\x7d)`
and assert each key to string — panicking when the secret is nil, the field
is missing or not a list, or a key is not a string. -/
def vaultTokenStore.List (list : String → VaultResponse)
    (userId : String) : VaultOutcome StrList :=
  let resp := list ("secret/accesstokens/" ++ userId)
  match resp.err with
  | some e => .fail e
  | none =>
    match resp.secret with
    | none => .crash
    | some data =>
      match (mapGet data "keys").getD GoValue.null with
      | .arr keys =>
        match asStrings keys with
        | some tokens => .ok tokens
        | none => .crash
      | _ => .crash

/- Operation sequences over the in-memory store, for reachability and
persistence statements. -/

/-- A state-changing in-memory operation. -/
inductive Op where
  | store (userId token : String)
  | revoke (userId token : String)
deriving DecidableEq

/-- Apply one operation to an in-memory state. -/
def applyOp (s : StoreMap) : Op → StoreMap
  | .store u t => (inMemoryTokenStore.Store s u t).1
  | .revoke u t => (inMemoryTokenStore.Revoke s u t).1

/-- Apply a sequence of operations, oldest first. -/
def applyOps (s : StoreMap) (ops : List Op) : StoreMap :=
  ops.foldl applyOp s

/-- The token is not bound under the user's scope (vacuously so for an
unknown user). -/
def tokenAbsent (s : StoreMap) (u t : String) : Prop :=
  mapGet ((mapGet s u).getD []) t = none

instance (s : StoreMap) (u t : String) : Decidable (tokenAbsent s u t) := by
  unfold tokenAbsent; infer_instance

/-- Every binding in every per-user map binds a token id to itself. -/
def storedSelf (s : StoreMap) : Prop :=
  ∀ u inner t v, mapGet s u = some inner → mapGet inner t = some v → v = t

/- Association-list lemmas for the Go map operations. -/

theorem mapGet_mapSet {β : Type} (m : List (String × β)) (k q : String) (v : β) :
    mapGet (mapSet m k v) q = if k = q then some v else mapGet m q := by
  induction m with
  | nil => rfl
  | cons p rest ih =>
    obtain ⟨a, b⟩ := p
    by_cases hak : a = k
    · subst hak
      show mapGet (if a = a then (a, v) :: rest else _) q = _
      rw [if_pos rfl]
      show (if a = q then some v else mapGet rest q) = _
      by_cases haq : a = q
      · rw [if_pos haq, if_pos haq]
      · rw [if_neg haq, if_neg haq]
        show _ = mapGet ((a, b) :: rest) q
        rw [show mapGet ((a, b) :: rest) q = if a = q then some b else mapGet rest q from rfl,
          if_neg haq]
    · show mapGet (if a = k then _ else (a, b) :: mapSet rest k v) q = _
      rw [if_neg hak]
      show (if a = q then some b else mapGet (mapSet rest k v) q) = _
      by_cases haq : a = q
      · rw [if_pos haq]
        have hkq : ¬ k = q := fun h => hak (haq.trans h.symm)
        rw [if_neg hkq]
        show _ = if a = q then some b else mapGet rest q
        rw [if_pos haq]
      · rw [if_neg haq, ih]
        by_cases hkq : k = q
        · rw [if_pos hkq, if_pos hkq]
        · rw [if_neg hkq, if_neg hkq]
          show _ = if a = q then some b else mapGet rest q
          rw [if_neg haq]

theorem mapGet_mapDelete {β : Type} (m : List (String × β)) (k q : String) :
    mapGet (mapDelete m k) q = if q = k then none else mapGet m q := by
  induction m with
  | nil =>
    show (none : Option β) = if q = k then none else none
    by_cases hqk : q = k
    · rw [if_pos hqk]
    · rw [if_neg hqk]
  | cons p rest ih =>
    obtain ⟨a, b⟩ := p
    show mapGet (if a = k then mapDelete rest k else (a, b) :: mapDelete rest k) q = _
    by_cases hak : a = k
    · rw [if_pos hak, ih]
      by_cases hqk : q = k
      · rw [if_pos hqk, if_pos hqk]
      · rw [if_neg hqk, if_neg hqk]
        show _ = if a = q then some b else mapGet rest q
        have haq : ¬ a = q := fun h => hqk (h.symm.trans hak)
        rw [if_neg haq]
    · rw [if_neg hak]
      show (if a = q then some b else mapGet (mapDelete rest k) q) = _
      by_cases haq : a = q
      · rw [if_pos haq]
        have hqk : ¬ q = k := fun h => hak (haq.trans h)
        rw [if_neg hqk]
        show _ = if a = q then some b else mapGet rest q
        rw [if_pos haq]
      · rw [if_neg haq, ih]
        by_cases hqk : q = k
        · rw [if_pos hqk, if_pos hqk]
        · rw [if_neg hqk, if_neg hqk]
          show _ = if a = q then some b else mapGet rest q
          rw [if_neg haq]

theorem mapGet_eq_none_iff {β : Type} (m : List (String × β)) (k : String) :
    mapGet m k = none ↔ k ∉ m.map Prod.fst := by
  induction m with
  | nil => simp [mapGet]
  | cons p rest ih =>
    obtain ⟨a, b⟩ := p
    by_cases hak : a = k
    · subst hak
      show (if a = a then some b else mapGet rest a) = none ↔ _
      rw [if_pos rfl]
      simp
    · show (if a = k then some b else mapGet rest k) = none ↔ _
      rw [if_neg hak]
      simp only [List.map_cons, List.mem_cons, ih]
      constructor
      · rintro h (h1 | h2)
        · exact hak h1.symm
        · exact h h2
      · intro h h2
        exact h (Or.inr h2)

theorem mapGet_mem {β : Type} {m : List (String × β)} {k : String} {v : β}
    (h : mapGet m k = some v) : (k, v) ∈ m := by
  induction m with
  | nil => exact absurd h (by simp [mapGet])
  | cons p rest ih =>
    obtain ⟨a, b⟩ := p
    by_cases hak : a = k
    · subst hak
      have h' : (if a = a then some b else mapGet rest a) = some v := h
      rw [if_pos rfl] at h'
      cases h'
      exact List.mem_cons_self _ _
    · have h' : (if a = k then some b else mapGet rest k) = some v := h
      rw [if_neg hak] at h'
      exact List.mem_cons_of_mem _ (ih h')

theorem mapSet_mapSet {β : Type} (m : List (String × β)) (k : String) (v w : β) :
    mapSet (mapSet m k v) k w = mapSet m k w := by
  induction m with
  | nil =>
    show mapSet [(k, v)] k w = [(k, w)]
    show (if k = k then (k, w) :: [] else _) = _
    rw [if_pos rfl]
  | cons p rest ih =>
    obtain ⟨a, b⟩ := p
    by_cases hak : a = k
    · subst hak
      show mapSet (if a = a then (a, v) :: rest else _) a w = _
      rw [if_pos rfl]
      show (if a = a then (a, w) :: rest else _) = _
      rw [if_pos rfl]
      show _ = if a = a then (a, w) :: rest else _
      rw [if_pos rfl]
    · show mapSet (if a = k then _ else (a, b) :: mapSet rest k v) k w = _
      rw [if_neg hak]
      show (if a = k then _ else (a, b) :: mapSet (mapSet rest k v) k w) = _
      rw [if_neg hak, ih]
      show _ = if a = k then _ else (a, b) :: mapSet rest k w
      rw [if_neg hak]

theorem mapSet_get_self {β : Type} {m : List (String × β)} {k : String} {v : β}
    (h : mapGet m k = some v) : mapSet m k v = m := by
  induction m with
  | nil => exact absurd h (by simp [mapGet])
  | cons p rest ih =>
    obtain ⟨a, b⟩ := p
    by_cases hak : a = k
    · subst hak
      have h' : (if a = a then some b else mapGet rest a) = some v := h
      rw [if_pos rfl] at h'
      have hbv : b = v := Option.some.inj h'
      show (if a = a then (a, v) :: rest else _) = _
      rw [if_pos rfl, ← hbv]
    · have h' : (if a = k then some b else mapGet rest k) = some v := h
      rw [if_neg hak] at h'
      show (if a = k then _ else (a, b) :: mapSet rest k v) = _
      rw [if_neg hak, ih h']

theorem mapDelete_get_none {β : Type} {m : List (String × β)} {k : String}
    (h : mapGet m k = none) : mapDelete m k = m := by
  induction m with
  | nil => rfl
  | cons p rest ih =>
    obtain ⟨a, b⟩ := p
    by_cases hak : a = k
    · subst hak
      have h' : (if a = a then some b else mapGet rest a) = none := h
      rw [if_pos rfl] at h'
      exact absurd h' (by simp)
    · have h' : (if a = k then some b else mapGet rest k) = none := h
      rw [if_neg hak] at h'
      show (if a = k then mapDelete rest k else (a, b) :: mapDelete rest k) = _
      rw [if_neg hak, ih h']

theorem lookup_of_tokenAbsent {s : StoreMap} {u t : String} (h : tokenAbsent s u t) :
    inMemoryTokenStore.Lookup s u t = ("", none) := by
  unfold tokenAbsent at h
  unfold inMemoryTokenStore.Lookup
  cases hg : mapGet s u with
  | none => rfl
  | some inner =>
    rw [hg] at h
    simp only [Option.getD_some] at h
    simp [h]

theorem not_mem_list_of_tokenAbsent {s : StoreMap} {u t : String} (h : tokenAbsent s u t) :
    t ∉ (inMemoryTokenStore.List s u).1 := by
  unfold tokenAbsent at h
  unfold inMemoryTokenStore.List
  cases hg : mapGet s u with
  | none => simp
  | some inner =>
    rw [hg] at h
    simp only [Option.getD_some] at h
    exact (mapGet_eq_none_iff inner t).mp h

theorem tokenAbsent_revoke (s : StoreMap) (u t : String) :
    tokenAbsent (inMemoryTokenStore.Revoke s u t).1 u t := by
  unfold tokenAbsent inMemoryTokenStore.Revoke
  cases hg : mapGet s u with
  | none => simp [hg, mapGet]
  | some inner =>
    simp only
    rw [mapGet_mapSet, if_pos rfl]
    simp only [Option.getD_some]
    rw [mapGet_mapDelete, if_pos rfl]

theorem tokenAbsent_applyOp {s : StoreMap} {u t : String} (op : Op)
    (h : tokenAbsent s u t) (hop : op ≠ Op.store u t) :
    tokenAbsent (applyOp s op) u t := by
  unfold tokenAbsent at h ⊢
  cases op with
  | store u0 t0 =>
    show mapGet ((mapGet (inMemoryTokenStore.Store s u0 t0).1 u).getD []) t = none
    unfold inMemoryTokenStore.Store
    simp only
    rw [mapGet_mapSet]
    by_cases h0 : u0 = u
    · subst h0
      rw [if_pos rfl]
      simp only [Option.getD_some]
      rw [mapGet_mapSet]
      have ht0 : ¬ t0 = t := fun ht => hop (by rw [ht])
      rw [if_neg ht0]
      exact h
    · rw [if_neg h0]
      exact h
  | revoke u0 t0 =>
    show mapGet ((mapGet (inMemoryTokenStore.Revoke s u0 t0).1 u).getD []) t = none
    unfold inMemoryTokenStore.Revoke
    cases hg : mapGet s u0 with
    | none => exact h
    | some inner0 =>
      simp only
      rw [mapGet_mapSet]
      by_cases h0 : u0 = u
      · subst h0
        rw [if_pos rfl]
        simp only [Option.getD_some]
        rw [hg] at h
        simp only [Option.getD_some] at h
        rw [mapGet_mapDelete]
        by_cases htt : t = t0
        · rw [if_pos htt]
        · rw [if_neg htt]
          exact h
      · rw [if_neg h0]
        exact h

theorem tokenAbsent_applyOps {s : StoreMap} {u t : String} (ops : List Op)
    (h : tokenAbsent s u t) (hops : ∀ op ∈ ops, op ≠ Op.store u t) :
    tokenAbsent (applyOps s ops) u t := by
  induction ops generalizing s with
  | nil => exact h
  | cons op rest ih =>
    have h1 : tokenAbsent (applyOp s op) u t :=
      tokenAbsent_applyOp op h (hops op (List.mem_cons_self _ _))
    exact ih h1 (fun o ho => hops o (List.mem_cons_of_mem _ ho))

theorem storedSelf_empty : storedSelf NewInMemoryTokenStore := by
  intro u inner t v hg
  simp [NewInMemoryTokenStore, mapGet] at hg

theorem storedSelf_applyOp {s : StoreMap} (op : Op) (hs : storedSelf s) :
    storedSelf (applyOp s op) := by
  cases op with
  | store u0 t0 =>
    intro u inner t v hg hl
    unfold applyOp inMemoryTokenStore.Store at hg
    simp only at hg
    rw [mapGet_mapSet] at hg
    by_cases h0 : u0 = u
    · rw [if_pos h0] at hg
      have hinner : inner = mapSet ((mapGet s u0).getD []) t0 t0 := (Option.some.inj hg).symm
      rw [hinner] at hl
      rw [mapGet_mapSet] at hl
      by_cases ht : t0 = t
      · rw [if_pos ht] at hl
        exact (Option.some.inj hl).symm.trans ht
      · rw [if_neg ht] at hl
        cases hgs : mapGet s u0 with
        | none =>
          rw [hgs] at hl
          simp [mapGet] at hl
        | some i =>
          rw [hgs] at hl
          simp only [Option.getD_some] at hl
          exact hs u0 i t v hgs hl
    · rw [if_neg h0] at hg
      exact hs u inner t v hg hl
  | revoke u0 t0 =>
    intro u inner t v hg hl
    have hop : applyOp s (Op.revoke u0 t0) = (inMemoryTokenStore.Revoke s u0 t0).1 := rfl
    rw [hop] at hg
    unfold inMemoryTokenStore.Revoke at hg
    cases hgs : mapGet s u0 with
    | none =>
      rw [hgs] at hg
      exact hs u inner t v hg hl
    | some inner0 =>
      rw [hgs] at hg
      simp only at hg
      rw [mapGet_mapSet] at hg
      by_cases h0 : u0 = u
      · rw [if_pos h0] at hg
        have hinner : inner = mapDelete inner0 t0 := (Option.some.inj hg).symm
        rw [hinner, mapGet_mapDelete] at hl
        by_cases ht : t = t0
        · rw [if_pos ht] at hl
          exact absurd hl (by simp)
        · rw [if_neg ht] at hl
          exact hs u0 inner0 t v hgs hl
      · rw [if_neg h0] at hg
        exact hs u inner t v hg hl

theorem storedSelf_applyOps (ops : List Op) {s : StoreMap} (hs : storedSelf s) :
    storedSelf (applyOps s ops) := by
  induction ops generalizing s with
  | nil => exact hs
  | cons op rest ih => exact ih (storedSelf_applyOp op hs)

theorem count_keys_mapSet (m : UserTokens) (k v : String) (h : mapWF m) :
    ((mapSet m k v).map Prod.fst).count k = 1 := by
  induction m with
  | nil => simp [mapSet]
  | cons p rest ih =>
    obtain ⟨a, b⟩ := p
    have h' : (a :: rest.map Prod.fst).Nodup := h
    obtain ⟨h1, h2⟩ := List.nodup_cons.mp h'
    by_cases hak : a = k
    · subst hak
      have hs : mapSet ((a, b) :: rest) a v = (a, v) :: rest := by
        show (if a = a then (a, v) :: rest else _) = _
        rw [if_pos rfl]
      rw [hs]
      simp [List.count_cons, List.count_eq_zero_of_not_mem h1]
    · have hs : mapSet ((a, b) :: rest) k v = (a, b) :: mapSet rest k v := by
        show (if a = k then _ else (a, b) :: mapSet rest k v) = _
        rw [if_neg hak]
      rw [hs]
      have hka : k ≠ a := fun h => hak h.symm
      simp [List.count_cons_of_ne hka, ih h2]

/- Claim theorems. -/

/-- C1: the claim says Lookup and List on an unknown userScope/tokenID return
an empty non-error result in both variants, the remote variant translating the
secret service's absence signal (nil secret, nil error) into empty-no-error.
The in-memory variant does so, but the remote code dereferences the nil secret
(`secret.Data`) and panics instead of returning an empty result: evaluating the
embedding at an absent path yields the crash outcome. -/
theorem claim_C1 :
    vaultTokenStore.Lookup (fun _ => ⟨none, none⟩) "alice" "tok1" = VaultOutcome.crash ∧
    vaultTokenStore.List (fun _ => ⟨none, none⟩) "alice" = VaultOutcome.crash ∧
    inMemoryTokenStore.Lookup NewInMemoryTokenStore "alice" "tok1" = ("", none) ∧
    inMemoryTokenStore.List NewInMemoryTokenStore "alice" = ([], none) :=
  ⟨rfl, rfl, rfl, rfl⟩

/-- C2: the claim says a payload missing the token field (Lookup) or key list
(List) makes the remote operation return an error, not crash.  The code's
failed type assertion `secret.Data["token"].(string)` (resp. `.([]interface)`
on "keys") panics instead: evaluating the embedding on a payload without the
expected field yields the crash outcome, not a fail outcome. -/
theorem claim_C2 :
    vaultTokenStore.Lookup (fun _ => ⟨some [("other", GoValue.str "x")], none⟩) "alice" "tok1"
      = VaultOutcome.crash ∧
    vaultTokenStore.List (fun _ => ⟨some [("other", GoValue.str "x")], none⟩) "alice"
      = VaultOutcome.crash :=
  ⟨rfl, rfl⟩

/-- C3: for every userScope, tokenID and prior in-memory state, Store(u,t)
followed by Lookup(u,t) returns t with nil error. -/
theorem claim_C3 (s : StoreMap) (u t : String) :
    inMemoryTokenStore.Lookup (inMemoryTokenStore.Store s u t).1 u t = (t, none) := by
  have h1 : mapGet (inMemoryTokenStore.Store s u t).1 u
      = some (mapSet ((mapGet s u).getD []) t t) := by
    show mapGet (mapSet s u (mapSet ((mapGet s u).getD []) t t)) u = _
    rw [mapGet_mapSet, if_pos rfl]
  have h2 : mapGet (mapSet ((mapGet s u).getD []) t t) t = some t := by
    rw [mapGet_mapSet, if_pos rfl]
  unfold inMemoryTokenStore.Lookup
  rw [h1]
  show ((mapGet (mapSet ((mapGet s u).getD []) t t) t).getD "", none) = (t, none)
  rw [h2]
  rfl

/-- C4: after Revoke(u,t), from any prior state, the token t is absent from
Lookup(u,t) (empty result, nil error) and from List(u) across any following
operation sequence that does not contain Store(u,t). -/
theorem claim_C4 (s : StoreMap) (u t : String) (ops : List Op)
    (hops : ∀ op ∈ ops, op ≠ Op.store u t) :
    inMemoryTokenStore.Lookup (applyOps (inMemoryTokenStore.Revoke s u t).1 ops) u t
      = ("", none) ∧
    t ∉ (inMemoryTokenStore.List (applyOps (inMemoryTokenStore.Revoke s u t).1 ops) u).1 := by
  have h := tokenAbsent_applyOps ops (tokenAbsent_revoke s u t) hops
  exact ⟨lookup_of_tokenAbsent h, not_mem_list_of_tokenAbsent h⟩

/-- Witness for C4: revoking "tok1" for "alice" and then storing a different
token "tok2" leaves "tok1" out of lookup and list. -/
theorem claim_C4_witness :
    inMemoryTokenStore.Lookup
        (applyOps (inMemoryTokenStore.Revoke [("alice", [("tok1", "tok1")])] "alice" "tok1").1
          [Op.store "alice" "tok2"]) "alice" "tok1" = ("", none) ∧
    "tok1" ∉ (inMemoryTokenStore.List
        (applyOps (inMemoryTokenStore.Revoke [("alice", [("tok1", "tok1")])] "alice" "tok1").1
          [Op.store "alice" "tok2"]) "alice").1 :=
  claim_C4 _ _ _ _ (by decide)

/-- C5: Store is idempotent on every Go-representable (distinct-key) state:
storing (u,t) twice yields the same state as storing it once, and List(u)
then contains exactly one occurrence of t. -/
theorem claim_C5 (s : StoreMap) (u t : String) (hwf : StoreWF s) :
    (inMemoryTokenStore.Store (inMemoryTokenStore.Store s u t).1 u t).1
      = (inMemoryTokenStore.Store s u t).1 ∧
    ((inMemoryTokenStore.List (inMemoryTokenStore.Store s u t).1 u).1).count t = 1 := by
  have hinner : mapGet (inMemoryTokenStore.Store s u t).1 u
      = some (mapSet ((mapGet s u).getD []) t t) := by
    show mapGet (mapSet s u (mapSet ((mapGet s u).getD []) t t)) u = _
    rw [mapGet_mapSet, if_pos rfl]
  constructor
  · show mapSet (inMemoryTokenStore.Store s u t).1 u
        (mapSet ((mapGet (inMemoryTokenStore.Store s u t).1 u).getD []) t t)
      = (inMemoryTokenStore.Store s u t).1
    rw [hinner]
    simp only [Option.getD_some]
    rw [mapSet_mapSet]
    show mapSet (mapSet s u (mapSet ((mapGet s u).getD []) t t)) u
        (mapSet ((mapGet s u).getD []) t t)
      = mapSet s u (mapSet ((mapGet s u).getD []) t t)
    rw [mapSet_mapSet]
  · have hl : (inMemoryTokenStore.List (inMemoryTokenStore.Store s u t).1 u).1
        = (mapSet ((mapGet s u).getD []) t t).map Prod.fst := by
      unfold inMemoryTokenStore.List
      rw [hinner]
    rw [hl]
    apply count_keys_mapSet
    cases hg : mapGet s u with
    | none => simp [mapWF]
    | some inner =>
      simp only [Option.getD_some]
      exact hwf.2 _ (mapGet_mem hg)

/-- Witness for C5 at a concrete well-formed state. -/
theorem claim_C5_witness :
    (inMemoryTokenStore.Store
        (inMemoryTokenStore.Store [("bob", [("x", "x")])] "alice" "tok1").1 "alice" "tok1").1
      = (inMemoryTokenStore.Store [("bob", [("x", "x")])] "alice" "tok1").1 ∧
    ((inMemoryTokenStore.List
        (inMemoryTokenStore.Store [("bob", [("x", "x")])] "alice" "tok1").1 "alice").1).count
        "tok1" = 1 :=
  claim_C5 _ _ _ (by decide)

/-- C6: revoking an absent tokenID is a no-op success in both variants: the
in-memory Revoke returns the unchanged state with nil error, and the remote
Revoke returns nil error whenever the secret service's delete call reports no
error (per the spec the service's delete of a non-existent path reports
success). -/
theorem claim_C6 :
    (∀ (s : StoreMap) (u t : String), tokenAbsent s u t →
      inMemoryTokenStore.Revoke s u t = (s, none)) ∧
    (∀ (remove : String → VaultResponse) (u t : String),
      (remove (tokenPath u t)).err = none →
      vaultTokenStore.Revoke remove u t = none) := by
  constructor
  · intro s u t h
    unfold tokenAbsent at h
    unfold inMemoryTokenStore.Revoke
    cases hg : mapGet s u with
    | none => rfl
    | some inner =>
      rw [hg] at h
      simp only [Option.getD_some] at h
      simp only
      rw [mapDelete_get_none h, mapSet_get_self hg]
  · intro remove u t h
    unfold vaultTokenStore.Revoke
    exact h

/-- Witness for C6: revoking the unstored "tok2" leaves the state unchanged
with nil error in memory, and the remote Revoke reports success when the
delete call does. -/
theorem claim_C6_witness :
    inMemoryTokenStore.Revoke [("alice", [("tok1", "tok1")])] "alice" "tok2"
      = ([("alice", [("tok1", "tok1")])], none) ∧
    vaultTokenStore.Revoke (fun _ => ⟨none, none⟩) "alice" "tok2" = none :=
  ⟨claim_C6.1 _ _ _ (by decide), claim_C6.2 _ _ _ rfl⟩

/-- C7: every in-memory operation returns a nil error, for every input and
every state. -/
theorem claim_C7 (s : StoreMap) (u t : String) :
    (inMemoryTokenStore.Store s u t).2 = none ∧
    (inMemoryTokenStore.Lookup s u t).2 = none ∧
    (inMemoryTokenStore.Revoke s u t).2 = none ∧
    (inMemoryTokenStore.List s u).2 = none := by
  refine ⟨rfl, ?_, ?_, ?_⟩
  · unfold inMemoryTokenStore.Lookup
    cases mapGet s u <;> rfl
  · unfold inMemoryTokenStore.Revoke
    cases mapGet s u <;> rfl
  · unfold inMemoryTokenStore.List
    cases mapGet s u <;> rfl

/-- Counterexample for C8: the path the code constructs for Store, Lookup and
Revoke is `secret/accesstokens/<userScope>/<tokenID>`, not exactly
`accesstokens/<userScope>/<tokenID>` as the claim states. -/
theorem claim_C8_counterexample :
    tokenPath "alice" "tok1" = "secret/accesstokens/alice/tok1" ∧
    tokenPath "alice" "tok1" ≠ "accesstokens/alice/tok1" := by
  constructor
  · rfl
  · decide

/-- C8 (amended): each remote operation addresses the deterministic path
`secret/accesstokens/<userScope>/<tokenID>` (Store, Lookup, Revoke) resp.
`secret/accesstokens/<userScope>` (List): the path equation holds, and each
operation's result depends on the client only through its value at that
path. -/
theorem claim_C8 (u t : String) :
    tokenPath u t = "secret/accesstokens/" ++ u ++ "/" ++ t ∧
    (∀ w₁ w₂ : String → SecretData → Option GoError,
      w₁ (tokenPath u t) = w₂ (tokenPath u t) →
      vaultTokenStore.Store w₁ u t = vaultTokenStore.Store w₂ u t) ∧
    (∀ r₁ r₂ : String → VaultResponse,
      r₁ (tokenPath u t) = r₂ (tokenPath u t) →
      vaultTokenStore.Lookup r₁ u t = vaultTokenStore.Lookup r₂ u t) ∧
    (∀ d₁ d₂ : String → VaultResponse,
      d₁ (tokenPath u t) = d₂ (tokenPath u t) →
      vaultTokenStore.Revoke d₁ u t = vaultTokenStore.Revoke d₂ u t) ∧
    (∀ l₁ l₂ : String → VaultResponse,
      l₁ ("secret/accesstokens/" ++ u) = l₂ ("secret/accesstokens/" ++ u) →
      vaultTokenStore.List l₁ u = vaultTokenStore.List l₂ u) := by
  refine ⟨rfl, ?_, ?_, ?_, ?_⟩
  · intro w₁ w₂ h
    unfold vaultTokenStore.Store
    exact congrFun h _
  · intro r₁ r₂ h
    unfold vaultTokenStore.Lookup
    rw [h]
  · intro d₁ d₂ h
    unfold vaultTokenStore.Revoke
    rw [h]
  · intro l₁ l₂ h
    unfold vaultTokenStore.List
    rw [h]

/-- Witness for C8 at concrete inputs and clients. -/
theorem claim_C8_witness :
    vaultTokenStore.Store (fun _ _ => none) "alice" "tok1"
      = vaultTokenStore.Store (fun _ _ => none) "alice" "tok1" ∧
    vaultTokenStore.Lookup (fun _ => ⟨none, none⟩) "alice" "tok1"
      = vaultTokenStore.Lookup
          (fun p => if p = tokenPath "alice" "tok1" then ⟨none, none⟩ else ⟨none, some "e"⟩)
          "alice" "tok1" ∧
    vaultTokenStore.Revoke (fun _ => ⟨none, none⟩) "alice" "tok1"
      = vaultTokenStore.Revoke (fun _ => ⟨none, none⟩) "alice" "tok1" ∧
    vaultTokenStore.List (fun _ => ⟨none, none⟩) "alice"
      = vaultTokenStore.List (fun _ => ⟨none, none⟩) "alice" :=
  ⟨(claim_C8 "alice" "tok1").2.1 _ _ rfl,
   (claim_C8 "alice" "tok1").2.2.1 _ _ (by simp),
   (claim_C8 "alice" "tok1").2.2.2.1 _ _ rfl,
   (claim_C8 "alice" "tok1").2.2.2.2 _ _ rfl⟩

/-- C9: on every state reachable from the empty in-memory store, Lookup(u,t)
returns either t itself or the empty string (each with nil error), never any
other string — every stored value equals its token id key. -/
theorem claim_C9 (ops : List Op) (u t : String) :
    inMemoryTokenStore.Lookup (applyOps NewInMemoryTokenStore ops) u t = (t, none) ∨
    inMemoryTokenStore.Lookup (applyOps NewInMemoryTokenStore ops) u t = ("", none) := by
  have hs : storedSelf (applyOps NewInMemoryTokenStore ops) :=
    storedSelf_applyOps ops storedSelf_empty
  unfold inMemoryTokenStore.Lookup
  cases hg : mapGet (applyOps NewInMemoryTokenStore ops) u with
  | none => exact Or.inr rfl
  | some inner =>
    cases hl : mapGet inner t with
    | none =>
      right
      simp [hl]
    | some v =>
      left
      have hv := hs u inner t v hg hl
      simp [hl, hv]

/-- C10: in-memory Store(u,t) and Revoke(u,t) only affect the pair (u,t):
Lookup at any other pair is unchanged, and List for any other user is
unchanged. -/
theorem claim_C10 (s : StoreMap) (u t u' t' : String) :
    ((u', t') ≠ (u, t) →
      inMemoryTokenStore.Lookup (inMemoryTokenStore.Store s u t).1 u' t'
        = inMemoryTokenStore.Lookup s u' t' ∧
      inMemoryTokenStore.Lookup (inMemoryTokenStore.Revoke s u t).1 u' t'
        = inMemoryTokenStore.Lookup s u' t') ∧
    (u' ≠ u →
      inMemoryTokenStore.List (inMemoryTokenStore.Store s u t).1 u'
        = inMemoryTokenStore.List s u' ∧
      inMemoryTokenStore.List (inMemoryTokenStore.Revoke s u t).1 u'
        = inMemoryTokenStore.List s u') := by
  have hstore : ∀ q, ¬ u = q →
      mapGet (inMemoryTokenStore.Store s u t).1 q = mapGet s q := by
    intro q hq
    show mapGet (mapSet s u (mapSet ((mapGet s u).getD []) t t)) q = _
    rw [mapGet_mapSet, if_neg hq]
  have hrevoke : ∀ q, ¬ u = q →
      mapGet (inMemoryTokenStore.Revoke s u t).1 q = mapGet s q := by
    intro q hq
    unfold inMemoryTokenStore.Revoke
    cases hg : mapGet s u with
    | none => rfl
    | some inner =>
      simp only
      rw [mapGet_mapSet, if_neg hq]
  have hlookup_congr : ∀ (s₁ s₂ : StoreMap) (q r : String),
      mapGet s₁ q = mapGet s₂ q →
      inMemoryTokenStore.Lookup s₁ q r = inMemoryTokenStore.Lookup s₂ q r := by
    intro s₁ s₂ q r h
    unfold inMemoryTokenStore.Lookup
    rw [h]
  have hlist_congr : ∀ (s₁ s₂ : StoreMap) (q : String),
      mapGet s₁ q = mapGet s₂ q →
      inMemoryTokenStore.List s₁ q = inMemoryTokenStore.List s₂ q := by
    intro s₁ s₂ q h
    unfold inMemoryTokenStore.List
    rw [h]
  constructor
  · intro hne
    by_cases hu : u = u'
    · subst hu
      have ht : ¬ t = t' := fun h => hne (by rw [h])
      have htt : ¬ t' = t := fun h => ht h.symm
      constructor
      · have hg : mapGet (inMemoryTokenStore.Store s u t).1 u
            = some (mapSet ((mapGet s u).getD []) t t) := by
          show mapGet (mapSet s u (mapSet ((mapGet s u).getD []) t t)) u = _
          rw [mapGet_mapSet, if_pos rfl]
        unfold inMemoryTokenStore.Lookup
        rw [hg]
        show ((mapGet (mapSet ((mapGet s u).getD []) t t) t').getD "", none) = _
        rw [mapGet_mapSet, if_neg ht]
        cases hgs : mapGet s u with
        | none => rfl
        | some inner => rfl
      · unfold inMemoryTokenStore.Revoke
        cases hgs : mapGet s u with
        | none => rfl
        | some inner =>
          simp only
          have hg : mapGet (mapSet s u (mapDelete inner t)) u = some (mapDelete inner t) := by
            rw [mapGet_mapSet, if_pos rfl]
          unfold inMemoryTokenStore.Lookup
          rw [hg, hgs]
          show ((mapGet (mapDelete inner t) t').getD "", none) = _
          rw [mapGet_mapDelete, if_neg htt]
    · exact ⟨hlookup_congr _ _ _ _ (hstore u' hu), hlookup_congr _ _ _ _ (hrevoke u' hu)⟩
  · intro hne
    have hu : ¬ u = u' := fun h => hne h.symm
    exact ⟨hlist_congr _ _ _ (hstore u' hu), hlist_congr _ _ _ (hrevoke u' hu)⟩

/-- Witness for C10 at concrete distinct pairs. -/
theorem claim_C10_witness :
    (inMemoryTokenStore.Lookup
        (inMemoryTokenStore.Store [("bob", [("tok2", "tok2")])] "alice" "tok1").1 "bob" "tok2"
      = inMemoryTokenStore.Lookup [("bob", [("tok2", "tok2")])] "bob" "tok2" ∧
    inMemoryTokenStore.Lookup
        (inMemoryTokenStore.Revoke [("bob", [("tok2", "tok2")])] "alice" "tok1").1 "bob" "tok2"
      = inMemoryTokenStore.Lookup [("bob", [("tok2", "tok2")])] "bob" "tok2") ∧
    (inMemoryTokenStore.List
        (inMemoryTokenStore.Store [("bob", [("tok2", "tok2")])] "alice" "tok1").1 "bob"
      = inMemoryTokenStore.List [("bob", [("tok2", "tok2")])] "bob" ∧
    inMemoryTokenStore.List
        (inMemoryTokenStore.Revoke [("bob", [("tok2", "tok2")])] "alice" "tok1").1 "bob"
      = inMemoryTokenStore.List [("bob", [("tok2", "tok2")])] "bob") :=
  ⟨(claim_C10 [("bob", [("tok2", "tok2")])] "alice" "tok1" "bob" "tok2").1 (by decide),
   (claim_C10 [("bob", [("tok2", "tok2")])] "alice" "tok1" "bob" "tok2").2 (by decide)⟩
